import Mathlib

/-
Verification of the mongoh schema algebra (src/schema.ts, src/types.ts,
src/utils.ts, src/ronk.ts) against its natural-language specification.

The embedding reifies the JavaScript runtime values that flow through the
library: `Value` models JS values, with objects as ordered lists of
own-enumerable string-keyed entries (JS objects preserve insertion order for
the string keys used throughout this library).  Schema nodes become the
inductive `Schema`, one constructor per class of schema.ts; each node carries
its `options` as an ordered entry list (a JS object).  An `options` field that
the source leaves `undefined` is modelled as the empty list, which is
observationally identical here: spreading `undefined` adds no entries and
`options?.k` is `undefined` either way.
-/

namespace Mongoh

/-- JS runtime values.  `obj` is a plain object (ordered own-enumerable
entries), `arr` a JS array, `regex` a RegExp carrying its source text, `fn` an
opaque function value, `oid` an ObjectId, `date` a Date and `bin` a Binary.
Numbers are modelled as integers (no claim involves non-integer arithmetic). -/
inductive Value where
  | undef
  | nullV
  | boolV (b : Bool)
  | num (n : Int)
  | str (s : String)
  | regex (source : String)
  | date (ms : Int)
  | oid (seed : Nat)
  | bin (bytes : List Nat)
  | fn
  | arr (elems : List Value)
  | obj (fields : List (String × Value))
deriving Repr

/-- Ordered own-enumerable entries of a JS object. -/
abbrev Fields := List (String × Value)

/-- JS property read `o[k]` on an entry list: value of the first entry with
the key, if any. -/
def lookupF : Fields → String → Option Value
  | [], _ => none
  | (k', v) :: rest, k => if k' = k then some v else lookupF rest k

/-- JS property read `o[k]` as a value: `undefined` when the key is absent. -/
def getField (fields : Fields) (k : String) : Value :=
  match lookupF fields k with
  | some v => v
  | none => Value.undef

/-- JS property write semantics used by object spread: an existing key keeps
its position and receives the new value, a new key is appended. -/
def setField : Fields → String → Value → Fields
  | [], k, v => [(k, v)]
  | (k', v') :: rest, k, v =>
    if k' = k then (k, v) :: rest else (k', v') :: setField rest k v

/-- JS `\x7b ...base, ...adds \x7d`: fold the added entries onto the base
object with JS property-write semantics. -/
def spreadInto (base : Fields) (adds : Fields) : Fields :=
  adds.foldl (fun acc kv => setField acc kv.1 kv.2) base

/-- JS `Object.fromEntries`: insert the entries into a fresh object in
order. -/
def fromEntries (entries : Fields) : Fields :=
  spreadInto [] entries

/-- JS rest destructuring `const \x7b k, ...rest \x7d = o`: every entry for
`k` is removed (a JS object has at most one). -/
def removeField (fields : Fields) (k : String) : Fields :=
  fields.filter (fun kv => kv.1 ≠ k)

/-- utils.ts `isArray` (Array.isArray). -/
def isArray : Value → Bool
  | .arr _ => true
  | _ => false

/-- utils.ts `isPlainObject`: in this value domain exactly the `obj`
constructor is a plain object (arrays, dates, regexes, functions and
primitives all fail the prototype test of the source). -/
def isPlainObject : Value → Bool
  | .obj _ => true
  | _ => false

/-- JS truthiness, used by the source in `pattern && ...`, `!pattern` and
`exclusive ? ... : ...`. -/
def jsTruthy : Value → Bool
  | .undef => false
  | .nullV => false
  | .boolV b => b
  | .num n => n ≠ 0
  | .str s => s ≠ ""
  | _ => true

/-- types.ts `DeletePolicy`. -/
inductive DeletePolicy where
  | bypass | reject | cascade | nullify | unset
deriving DecidableEq, Repr

/-- A delete policy as the JS string value stored in `options`. -/
def DeletePolicy.toValue : DeletePolicy → Value
  | .bypass => .str "bypass"
  | .reject => .str "reject"
  | .cascade => .str "cascade"
  | .nullify => .str "nullify"
  | .unset => .str "unset"

/-- The `defaultValue` stored by a `DefaultSchema`: a literal of the input
type or a zero-argument producer (`isFunction` discriminates at fill time). -/
inductive DefaultValue where
  | lit (v : Value)
  | producer (f : Unit → Value)

/-- Schema nodes, one constructor per class of schema.ts.  Every node carries
its `options` entry list.  `record'` stores its key as a full node and the
derivation discriminates on the enum constructor, mirroring the source's
`instanceof EnumSchema` test (the TS type restricts keys to
`StringSchema | EnumSchema<string[]>`). -/
inductive Schema where
  | null' (options : Fields)
  | bool' (options : Fields)
  | date' (options : Fields)
  | binary' (options : Fields)
  | objectId' (options : Fields)
  | ref' (ref : String) (options : Fields)
  | enum' (values : List Value) (options : Fields)
  | string' (options : Fields)
  | number' (options : Fields)
  | array' (items : Schema) (options : Fields)
  | object' (props : List (String × Schema)) (options : Fields)
  | collection' (props : List (String × Schema)) (options : Fields)
  | record' (key : Schema) (value : Schema) (options : Fields)
  | optional' (type' : Schema) (options : Fields)
  | default' (type' : Schema) (defaultValue : DefaultValue) (options : Fields)
  | union' (types : List Schema) (options : Fields)
  | intersection' (types : List Schema) (options : Fields)

/-- The `value !== undefined` test of `EnumSchema.required`. -/
def Value.isUndef : Value → Bool
  | .undef => true
  | _ => false

mutual

/-- Source `required()`: base `Schema.required` returns true; `EnumSchema` requires
every declared value to differ from `undefined`; `OptionalSchema` returns
false; `UnionSchema` requires every member; `IntersectionSchema` requires some
member.  `DefaultSchema` and all other kinds inherit the base. -/
def Schema.required : Schema → Bool
  | .enum' values _ => values.all (fun v => !v.isUndef)
  | .optional' _ _ => false
  | .union' types _ => Schema.allRequired types
  | .intersection' types _ => Schema.anyRequired types
  | _ => true

/-- Source `types.every(type => type.required())` over a member list. -/
def Schema.allRequired : List Schema → Bool
  | [] => true
  | t :: ts => t.required && Schema.allRequired ts

/-- Source `types.some(type => type.required())` over a member list. -/
def Schema.anyRequired : List Schema → Bool
  | [] => false
  | t :: ts => t.required || Schema.anyRequired ts

end

/-- Resolution of a default at fill time: `isFunction(defaultValue) ?
defaultValue() : defaultValue`. -/
def DefaultValue.resolve : DefaultValue → Value
  | .lit v => v
  | .producer f => f ()

/-- How many producer invocations resolving this default performs: one when
it is callable, zero for a literal. -/
def DefaultValue.producerCalls : DefaultValue → Nat
  | .lit _ => 0
  | .producer _ => 1

mutual

/-- Source `fill(input)`, instrumented: the second component counts how many times a
`default` node's producer function was invoked during the call, making the
source's effect (the only effectful operation of the core) observable.  Cases,
from schema.ts:
base `Schema.fill` returns the input (identity) — primitives, enum, ref,
union and intersection inherit it;
`ArraySchema.fill` returns a non-array input unchanged and maps the item
node's fill over an array;
`ObjectSchema.fill` and `CollectionSchema.fill` return a non-plain-object
input unchanged and otherwise spread the per-prop fills over a shallow copy;
`RecordSchema.fill` returns a non-plain-object input unchanged and otherwise
a shallow copy (the recursive value fill is an acknowledged TODO);
`OptionalSchema.fill` maps `undefined` to `undefined` and otherwise delegates;
`DefaultSchema.fill` delegates to the inner fill on the input if it is not
`undefined`, else on the resolved default. -/
def Schema.fillC : Schema → Value → Value × Nat
  | .array' items _, input =>
    match input with
    | .arr elems =>
      let r := Schema.fillElems items elems
      (.arr r.1, r.2)
    | v => (v, 0)
  | .object' props _, input =>
    match input with
    | .obj fields =>
      let r := Schema.fillProps props fields
      (.obj (spreadInto fields r.1), r.2)
    | v => (v, 0)
  | .collection' props _, input =>
    match input with
    | .obj fields =>
      let r := Schema.fillProps props fields
      (.obj (spreadInto fields r.1), r.2)
    | v => (v, 0)
  | .record' _ _ _, input =>
    match input with
    | .obj fields => (.obj fields, 0)
    | v => (v, 0)
  | .optional' t _, input =>
    match input with
    | .undef => (.undef, 0)
    | v => Schema.fillC t v
  | .default' t dv _, input =>
    match input with
    | .undef =>
      match dv with
      | .lit v => Schema.fillC t v
      | .producer f =>
        let r := Schema.fillC t (f ())
        (r.1, r.2 + 1)
    | v => Schema.fillC t v
  | _, input => (input, 0)

/-- Element-wise `input.map(item => this.items.fill(item))`, with the
producer-invocation counts summed. -/
def Schema.fillElems : Schema → List Value → List Value × Nat
  | _, [] => ([], 0)
  | items, v :: vs =>
    let r := Schema.fillC items v
    let rs := Schema.fillElems items vs
    (r.1 :: rs.1, r.2 + rs.2)

/-- The overriding entries `Object.entries(this.props).map(([key, value]) =>
[key, value.fill(input[key])])`, with counts summed. -/
def Schema.fillProps : List (String × Schema) → Fields → Fields × Nat
  | [], _ => ([], 0)
  | (k, child) :: ps, fields =>
    let r := Schema.fillC child (getField fields k)
    let rs := Schema.fillProps ps fields
    ((k, r.1) :: rs.1, r.2 + rs.2)

end

/-- Source `fill(input)` as the source exposes it: the normalized value. -/
def Schema.fill (s : Schema) (input : Value) : Value :=
  (s.fillC input).1

/-- The number of producer invocations a `fill(input)` call performs. -/
def Schema.fillCalls (s : Schema) (input : Value) : Nat :=
  (s.fillC input).2

/-- The `options` property every node carries. -/
def Schema.optionsOf : Schema → Fields
  | .null' o => o
  | .bool' o => o
  | .date' o => o
  | .binary' o => o
  | .objectId' o => o
  | .ref' _ o => o
  | .enum' _ o => o
  | .string' o => o
  | .number' o => o
  | .array' _ o => o
  | .object' _ o => o
  | .collection' _ o => o
  | .record' _ _ o => o
  | .optional' _ o => o
  | .default' _ _ o => o
  | .union' _ o => o
  | .intersection' _ o => o

/-- JS `??`: the left operand is replaced exactly when it is `undefined` or
`null`. -/
def jsNullish : Value → Bool
  | .undef => true
  | .nullV => true
  | _ => false

/-- JS `String(v)` as used for computed object keys.  The library only ever
converts strings here (record keys are typed `EnumSchema<string[]>`), for
which the conversion is the identity; the remaining cases follow JS string
conversion where it is well defined. -/
def jsStringOf : Value → String
  | .undef => "undefined"
  | .nullV => "null"
  | .boolV b => if b then "true" else "false"
  | .num n => toString n
  | .str s => s
  | .regex src => "/" ++ src ++ "/"
  | _ => "[object Object]"

/-- The `required` array `Object.entries(this.props).filter(([, value]) =>
value.required()).map(([key]) => key)` of an object or collection node. -/
def requiredKeys (props : List (String × Schema)) : List Value :=
  (props.filter (fun p => p.2.required)).map (fun p => .str p.1)

/-- A pattern option reduced for emission: `pattern instanceof RegExp ?
pattern.source : pattern`. -/
def patternSource : Value → Value
  | .regex src => .str src
  | v => v

/-- The `patternProperties` key of a record with a string key node:
`!pattern ? "^.*$" : pattern instanceof RegExp ? pattern.source : pattern`
over the key node's options. -/
def recordPatternKey (keyOpts : Fields) : String :=
  let p := getField keyOpts "pattern"
  if !jsTruthy p then "^.*$"
  else jsStringOf (patternSource p)

mutual

/-- Source `bsonSchema()`, one case per class of schema.ts.  A JS object literal
`\x7b a: x, ...opts, b: y \x7d` is modelled as starting from the leading
entries, spreading `opts` onto them, then writing the trailing keys, which is
exactly JS evaluation order; rest destructuring `const \x7b k, ...rest \x7d`
becomes `removeField`. -/
def Schema.bsonSchema : Schema → Value
  | .null' o => .obj (spreadInto [("bsonType", .str "null")] o)
  | .bool' o => .obj (spreadInto [("bsonType", .str "bool")] o)
  | .date' o => .obj (spreadInto [("bsonType", .str "date")] o)
  | .binary' o => .obj (spreadInto [("bsonType", .str "binData")] o)
  | .objectId' o => .obj (spreadInto [("bsonType", .str "objectId")] o)
  | .ref' _ o =>
    .obj (spreadInto [("bsonType", .str "objectId")] (removeField o "deletePolicy"))
  | .enum' values o => .obj (spreadInto [("enum", .arr values)] o)
  | .string' o =>
    let base := spreadInto [("bsonType", .str "string")] (removeField o "pattern")
    .obj (match lookupF o "pattern" with
      | some p =>
        if jsTruthy p then spreadInto base [("pattern", patternSource p)] else base
      | none => base)
  | .number' o =>
    let t := getField o "type"
    .obj (spreadInto
      [("bsonType", if jsNullish t then .str "number" else t)]
      (removeField o "type"))
  | .array' items o =>
    .obj (spreadInto (spreadInto [("bsonType", .str "array")] o)
      [("items", Schema.bsonSchema items)])
  | .object' props o =>
    .obj (spreadInto (spreadInto [("bsonType", .str "object")] o)
      [("required", .arr (requiredKeys props)),
       ("properties", .obj (fromEntries (Schema.bsonProps props)))])
  | .collection' props o =>
    .obj (spreadInto (spreadInto [("bsonType", .str "object")] o)
      [("required", .arr (requiredKeys props)),
       ("properties", .obj (fromEntries (Schema.bsonProps props)))])
  | .record' key value o =>
    let valueSchema := Schema.bsonSchema value
    let req := value.required
    let base := spreadInto [("bsonType", .str "object")] o
    .obj (match key with
      | .enum' values _ =>
        spreadInto base
          ((if req then [("required", .arr values)] else []) ++
            [("properties",
              .obj (fromEntries (values.map (fun v => (jsStringOf v, valueSchema)))))])
      | k =>
        spreadInto base
          [("patternProperties", .obj [(recordPatternKey k.optionsOf, valueSchema)])])
  | .optional' t _ => Schema.bsonSchema t
  | .default' t _ _ => Schema.bsonSchema t
  | .union' types o =>
    let key := if jsTruthy (getField o "exclusive") then "oneOf" else "anyOf"
    .obj (spreadInto (fromEntries (removeField o "exclusive"))
      [(key, .arr (Schema.bsonList types))])
  | .intersection' types o =>
    .obj (spreadInto (fromEntries o) [("allOf", .arr (Schema.bsonList types))])

/-- Source `types.map(type => type.bsonSchema())`. -/
def Schema.bsonList : List Schema → List Value
  | [] => []
  | t :: ts => Schema.bsonSchema t :: Schema.bsonList ts

/-- The `properties` entries `Object.entries(this.props).map(([key, value])
=> [key, value.bsonSchema()])`. -/
def Schema.bsonProps : List (String × Schema) → Fields
  | [] => []
  | (k, child) :: ps => (k, Schema.bsonSchema child) :: Schema.bsonProps ps

end

/-- Rebuild a node with the same class and children but new `options`: the
effect of the source's prototype clone in `title`/`description` combined with
an options replacement. -/
def Schema.withOptions : Schema → Fields → Schema
  | .null' _, o => .null' o
  | .bool' _, o => .bool' o
  | .date' _, o => .date' o
  | .binary' _, o => .binary' o
  | .objectId' _, o => .objectId' o
  | .ref' r _, o => .ref' r o
  | .enum' vs _, o => .enum' vs o
  | .string' _, o => .string' o
  | .number' _, o => .number' o
  | .array' items _, o => .array' items o
  | .object' props _, o => .object' props o
  | .collection' props _, o => .collection' props o
  | .record' k v _, o => .record' k v o
  | .optional' t _, o => .optional' t o
  | .default' t dv _, o => .default' t dv o
  | .union' ts _, o => .union' ts o
  | .intersection' ts _, o => .intersection' ts o

/-- Method `title(title)`: clone of the receiver whose options gain a `title`
entry. -/
def Schema.title (s : Schema) (t : String) : Schema :=
  s.withOptions (setField s.optionsOf "title" (.str t))

/-- Method `description(description)`: clone of the receiver whose options gain a
`description` entry. -/
def Schema.description (s : Schema) (d : String) : Schema :=
  s.withOptions (setField s.optionsOf "description" (.str d))

/-- Method `array()`: `new ArraySchema(this)`. -/
def Schema.array (s : Schema) : Schema :=
  .array' s []

/-- Method `record()`: `new RecordSchema(new StringSchema(), this)`. -/
def Schema.record (s : Schema) : Schema :=
  .record' (.string' []) s []

/-- Method `or(...types)`: `new UnionSchema([this, ...types])`. -/
def Schema.or (s : Schema) (types : List Schema) : Schema :=
  .union' (s :: types) []

/-- Method `and(...types)`: `new IntersectionSchema([this, ...types])`. -/
def Schema.and (s : Schema) (types : List Schema) : Schema :=
  .intersection' (s :: types) []

/-- Method `optional()`: `new OptionalSchema(this)`. -/
def Schema.optional (s : Schema) : Schema :=
  .optional' s []

/-- Method `nullable()`: `new UnionSchema([this, new NullSchema()])`. -/
def Schema.nullable (s : Schema) : Schema :=
  .union' [s, .null' []] []

/-- Method `nullish()`: `this.nullable().optional()`. -/
def Schema.nullish (s : Schema) : Schema :=
  .optional' (.union' [s, .null' []] []) []

/-- Method `default(defaultValue)`: `new DefaultSchema(this, defaultValue)`. -/
def Schema.default (s : Schema) (dv : DefaultValue) : Schema :=
  .default' s dv []

/-- The `min` method of the class the receiver belongs to
(`minLength` / `minimum` / `minItems` / `minProperties`); the remaining
classes have no such method, so those cases are unreachable in source-typed
programs. -/
def Schema.min (s : Schema) (n : Int) : Schema :=
  match s with
  | .string' o => .string' (setField o "minLength" (.num n))
  | .number' o => .number' (setField o "minimum" (.num n))
  | .array' items o => .array' items (setField o "minItems" (.num n))
  | .record' k v o => .record' k v (setField o "minProperties" (.num n))
  | x => x

/-- The `max` method of the class the receiver belongs to. -/
def Schema.max (s : Schema) (n : Int) : Schema :=
  match s with
  | .string' o => .string' (setField o "maxLength" (.num n))
  | .number' o => .number' (setField o "maximum" (.num n))
  | .array' items o => .array' items (setField o "maxItems" (.num n))
  | .record' k v o => .record' k v (setField o "maxProperties" (.num n))
  | x => x

/-- Method `ArraySchema.unique()`. -/
def Schema.unique (s : Schema) : Schema :=
  match s with
  | .array' items o => .array' items (setField o "uniqueItems" (.boolV true))
  | x => x

/-- The `strict()` method of `ObjectSchema` / `CollectionSchema` /
`RecordSchema`: sets `additionalProperties: false`. -/
def Schema.strict (s : Schema) : Schema :=
  match s with
  | .object' props o => .object' props (setField o "additionalProperties" (.boolV false))
  | .collection' props o =>
    .collection' props (setField o "additionalProperties" (.boolV false))
  | .record' k v o => .record' k v (setField o "additionalProperties" (.boolV false))
  | x => x

/-- Method `CollectionSchema.index(index)`: appends to
`[...(this.options?.indexes ?? []), index]`. -/
def Schema.index (s : Schema) (ix : Value) : Schema :=
  match s with
  | .collection' props o =>
    let existing := match getField o "indexes" with
      | .arr xs => xs
      | _ => []
    .collection' props (setField o "indexes" (.arr (existing ++ [ix])))
  | x => x

/-- Method `StringSchema.pattern(pattern)`. -/
def Schema.pattern (s : Schema) (p : Value) : Schema :=
  match s with
  | .string' o => .string' (setField o "pattern" p)
  | x => x

/-- Method `NumberSchema.int()`. -/
def Schema.int (s : Schema) : Schema :=
  match s with
  | .number' o => .number' (setField o "type" (.str "int"))
  | x => x

/-- Method `NumberSchema.multipleOf(multipleOf)`. -/
def Schema.multipleOf (s : Schema) (n : Int) : Schema :=
  match s with
  | .number' o => .number' (setField o "multipleOf" (.num n))
  | x => x

/-- Method `RefSchema.delete(deletePolicy)`: `new RefSchema(this.ref,
\x7b ...this.options, deletePolicy \x7d)`. -/
def Schema.delete (s : Schema) (p : DeletePolicy) : Schema :=
  match s with
  | .ref' r o => .ref' r (setField o "deletePolicy" p.toValue)
  | x => x

/-- Method `UnionSchema.exclusive()`. -/
def Schema.exclusive (s : Schema) : Schema :=
  match s with
  | .union' ts o => .union' ts (setField o "exclusive" (.boolV true))
  | x => x

/-
Object identity.  The source claims every combinator returns a new node and
never mutates its receiver.  A pure value embedding cannot even express field
mutation, so to make the property contentful nodes are placed in a store
(modelling the JS heap): a combinator application reads its receiver from the
store and appends the freshly constructed node.  The immutability claim then
says that every node already in the store — in particular the receiver — is
structurally unchanged by the application, and that the result is a new
object (a fresh index).
-/

/-- A heap of schema nodes; indices play the role of object references. -/
structure Store where
  nodes : List Schema

/-- One combinator invocation together with its arguments. -/
inductive Comb where
  | title (t : String)
  | description (d : String)
  | array
  | record
  | or (types : List Schema)
  | and (types : List Schema)
  | optional
  | nullable
  | nullish
  | default (dv : DefaultValue)
  | min (n : Int)
  | max (n : Int)
  | unique
  | strict
  | index (ix : Value)
  | pattern (p : Value)
  | int
  | multipleOf (n : Int)
  | delete (p : DeletePolicy)
  | exclusive

/-- Dispatch a combinator invocation to the source method it names. -/
def Comb.apply : Comb → Schema → Schema
  | .title t, s => s.title t
  | .description d, s => s.description d
  | .array, s => s.array
  | .record, s => s.record
  | .or ts, s => s.or ts
  | .and ts, s => s.and ts
  | .optional, s => s.optional
  | .nullable, s => s.nullable
  | .nullish, s => s.nullish
  | .default dv, s => s.default dv
  | .min n, s => s.min n
  | .max n, s => s.max n
  | .unique, s => s.unique
  | .strict, s => s.strict
  | .index ix, s => s.index ix
  | .pattern p, s => s.pattern p
  | .int, s => s.int
  | .multipleOf n, s => s.multipleOf n
  | .delete p, s => s.delete p
  | .exclusive, s => s.exclusive

/-- Apply a combinator to the node at index `i` of the store: the new node is
constructed from the receiver and appended; the returned index refers to it. -/
def Store.applyComb (st : Store) (c : Comb) (i : Nat) : Store × Nat :=
  (⟨st.nodes ++ [c.apply (st.nodes.getD i (.null' []))]⟩, st.nodes.length)

/-
Ref-target validation.  types.ts defines, and `db` (ronk.ts) applies to its
schema argument at construction time, the mapped type
`ValidateSchema<S> = \x7b [P in keyof S]: ValidateValue<S[P], keyof S> \x7d`
with `ValidateValue<V, K> = V extends RefSchema ? (V["ref"] extends K ? V :
\x7b __INVALID_REF__: V["ref"] \x7d) : \x7b [P in keyof V]:
ValidateValue<V[P], K> \x7d`: every `RefSchema` reachable through the
structure is kept when its target is a declared collection name and replaced
by an `__INVALID_REF__` marker naming the target otherwise.  The functions
below compute, value-level, the list of markers such a traversal plants
(`invalidRefs`) and, for comparison, the list of all ref targets
(`refTargets`).
-/

mutual

/-- All `ref` targets reachable through a node's children. -/
def Schema.refTargets : Schema → List String
  | .ref' r _ => [r]
  | .array' items _ => Schema.refTargets items
  | .object' props _ => Schema.refTargetsProps props
  | .collection' props _ => Schema.refTargetsProps props
  | .record' k v _ => Schema.refTargets k ++ Schema.refTargets v
  | .optional' t _ => Schema.refTargets t
  | .default' t _ _ => Schema.refTargets t
  | .union' ts _ => Schema.refTargetsList ts
  | .intersection' ts _ => Schema.refTargetsList ts
  | _ => []

/-- Ref targets of a member list. -/
def Schema.refTargetsList : List Schema → List String
  | [] => []
  | t :: ts => Schema.refTargets t ++ Schema.refTargetsList ts

/-- Ref targets of a property map. -/
def Schema.refTargetsProps : List (String × Schema) → List String
  | [] => []
  | (_, child) :: ps => Schema.refTargets child ++ Schema.refTargetsProps ps

end

mutual

/-- The `__INVALID_REF__` markers `ValidateValue<V, K>` plants in a node, in
traversal order: at a `ref` node the target is kept silently when it is a
declared name and marked otherwise; every other node is traversed
structurally, collecting the markers of all children. -/
def Schema.invalidRefs : Schema → List String → List String
  | .ref' r _, ks => if r ∈ ks then [] else [r]
  | .array' items _, ks => Schema.invalidRefs items ks
  | .object' props _, ks => Schema.invalidRefsProps props ks
  | .collection' props _, ks => Schema.invalidRefsProps props ks
  | .record' k v _, ks => Schema.invalidRefs k ks ++ Schema.invalidRefs v ks
  | .optional' t _, ks => Schema.invalidRefs t ks
  | .default' t _ _, ks => Schema.invalidRefs t ks
  | .union' ts _, ks => Schema.invalidRefsList ts ks
  | .intersection' ts _, ks => Schema.invalidRefsList ts ks
  | _, _ => []

/-- Markers of a member list. -/
def Schema.invalidRefsList : List Schema → List String → List String
  | [], _ => []
  | t :: ts, ks => Schema.invalidRefs t ks ++ Schema.invalidRefsList ts ks

/-- Markers of a property map. -/
def Schema.invalidRefsProps : List (String × Schema) → List String → List String
  | [], _ => []
  | (_, child) :: ps, ks =>
    Schema.invalidRefs child ks ++ Schema.invalidRefsProps ps ks

end

/-- Model of `ValidateSchema<S>` over a database schema (collection name → collection
node): the markers of every collection, checked against the full declared
name set, concatenated — the aggregate of every invalid reference in the
schema. -/
def schemaInvalidRefs (dbs : List (String × Schema)) : List String :=
  (dbs.map (fun p => p.2.invalidRefs (dbs.map Prod.fst))).flatten

/-- Observation of a derived document: property read on an object value,
`none` on any other value. -/
def Value.lookup : Value → String → Option Value
  | .obj fields, k => lookupF fields k
  | _, _ => none

/-- The node kinds whose `fill` is the inherited base identity (primitives,
enum, ref, union, intersection — §4.4 calls them pass-through). -/
def Schema.isPassThrough : Schema → Bool
  | .null' _ => true
  | .bool' _ => true
  | .date' _ => true
  | .binary' _ => true
  | .objectId' _ => true
  | .ref' _ _ => true
  | .enum' _ _ => true
  | .string' _ => true
  | .number' _ => true
  | .union' _ _ => true
  | .intersection' _ _ => true
  | _ => false

theorem lookupF_setField_self (l : Fields) (k : String) (v : Value) :
    lookupF (setField l k v) k = some v := by
  induction l with
  | nil => simp [setField, lookupF]
  | cons hd tl ih =>
    obtain ⟨k', v'⟩ := hd
    by_cases h : k' = k
    · simp [setField, h, lookupF]
    · simp [setField, h, lookupF, ih]

theorem lookupF_setField_ne (l : Fields) {k k' : String} (v : Value)
    (h : k' ≠ k) : lookupF (setField l k v) k' = lookupF l k' := by
  induction l with
  | nil => simp [setField, lookupF, Ne.symm h]
  | cons hd tl ih =>
    obtain ⟨k0, v0⟩ := hd
    by_cases h0 : k0 = k
    · simp [setField, h0, lookupF, Ne.symm h]
    · by_cases h1 : k0 = k'
      · simp [setField, h0, lookupF, h1, h]
      · simp [setField, h0, lookupF, h1, h, ih]

theorem lookupF_eq_none_iff (l : Fields) (k : String) :
    lookupF l k = none ↔ k ∉ l.map Prod.fst := by
  induction l with
  | nil => simp [lookupF]
  | cons hd tl ih =>
    obtain ⟨k0, v0⟩ := hd
    by_cases h : k0 = k
    · simp [lookupF, h]
    · simp [lookupF, h, ih, Ne.symm h]

theorem mem_of_lookupF_eq_some {l : Fields} {k : String} {v : Value}
    (h : lookupF l k = some v) : (k, v) ∈ l := by
  induction l with
  | nil => simp [lookupF] at h
  | cons hd tl ih =>
    obtain ⟨k0, v0⟩ := hd
    by_cases h0 : k0 = k
    · subst h0
      simp [lookupF] at h
      simp [h]
    · simp [lookupF, h0] at h
      exact List.mem_cons_of_mem _ (ih h)

theorem spreadInto_cons (base : Fields) (kv : String × Value) (adds : Fields) :
    spreadInto base (kv :: adds) = spreadInto (setField base kv.1 kv.2) adds := rfl

theorem lookupF_spreadInto_not_mem {adds : Fields} (base : Fields) {k : String}
    (h : k ∉ adds.map Prod.fst) :
    lookupF (spreadInto base adds) k = lookupF base k := by
  induction adds generalizing base with
  | nil => rfl
  | cons hd tl ih =>
    obtain ⟨k0, v0⟩ := hd
    simp only [List.map_cons, List.mem_cons] at h
    push_neg at h
    rw [spreadInto_cons]
    rw [ih (setField base k0 v0) h.2]
    exact lookupF_setField_ne base v0 h.1

theorem lookupF_spreadInto_mem {adds : Fields} (base : Fields) {k : String}
    {v : Value} (hnd : (adds.map Prod.fst).Nodup) (hmem : (k, v) ∈ adds) :
    lookupF (spreadInto base adds) k = some v := by
  induction adds generalizing base with
  | nil => simp at hmem
  | cons hd tl ih =>
    obtain ⟨k0, v0⟩ := hd
    simp only [List.map_cons, List.nodup_cons] at hnd
    rw [spreadInto_cons]
    rcases List.mem_cons.mp hmem with h | h
    · cases h
      rw [lookupF_spreadInto_not_mem (setField base k v) hnd.1]
      exact lookupF_setField_self base k v
    · exact ih (setField base k0 v0) hnd.2 h

theorem lookupF_spreadInto {adds : Fields} (base : Fields) (k : String)
    (hnd : (adds.map Prod.fst).Nodup) :
    lookupF (spreadInto base adds) k =
      ((lookupF adds k).orElse fun _ => lookupF base k) := by
  cases h : lookupF adds k with
  | none =>
    rw [lookupF_spreadInto_not_mem base ((lookupF_eq_none_iff adds k).mp h)]
    rfl
  | some v =>
    rw [lookupF_spreadInto_mem base hnd (mem_of_lookupF_eq_some h)]
    rfl

theorem lookupF_removeField_self (l : Fields) (k : String) :
    lookupF (removeField l k) k = none := by
  induction l with
  | nil => rfl
  | cons hd tl ih =>
    obtain ⟨k0, v0⟩ := hd
    by_cases h : k0 = k
    · simpa [removeField, h] using ih
    · simpa [removeField, lookupF, h] using ih

theorem lookupF_removeField_ne (l : Fields) {k k' : String} (h : k' ≠ k) :
    lookupF (removeField l k) k' = lookupF l k' := by
  induction l with
  | nil => rfl
  | cons hd tl ih =>
    obtain ⟨k0, v0⟩ := hd
    by_cases h0 : k0 = k
    · subst h0
      simpa [removeField, lookupF, Ne.symm h] using ih
    · by_cases h1 : k0 = k'
      · simp [removeField, lookupF, h0, h1, h]
      · simpa [removeField, lookupF, h0, h1, h] using ih

theorem setField_of_not_mem {l : Fields} {k : String} (v : Value)
    (h : k ∉ l.map Prod.fst) : setField l k v = l ++ [(k, v)] := by
  induction l with
  | nil => rfl
  | cons hd tl ih =>
    obtain ⟨k0, v0⟩ := hd
    simp only [List.map_cons, List.mem_cons] at h
    push_neg at h
    simp [setField, Ne.symm h.1, ih h.2]

theorem spreadInto_eq_append {adds : Fields} (base : Fields)
    (hnd : (adds.map Prod.fst).Nodup)
    (hdisj : ∀ k ∈ adds.map Prod.fst, k ∉ base.map Prod.fst) :
    spreadInto base adds = base ++ adds := by
  induction adds generalizing base with
  | nil => simp [spreadInto]
  | cons hd tl ih =>
    obtain ⟨k0, v0⟩ := hd
    simp only [List.map_cons, List.nodup_cons] at hnd
    rw [spreadInto_cons, setField_of_not_mem v0 (hdisj k0 (by simp))]
    rw [ih (base ++ [(k0, v0)]) hnd.2 ?_]
    · simp
    · intro k hk
      simp only [List.map_append, List.mem_append] at *
      push_neg
      refine ⟨fun hc => hdisj k (by simp [hk]) hc, ?_⟩
      simp only [List.map_cons, List.map_nil, List.mem_singleton]
      rintro rfl
      exact hnd.1 hk

theorem fromEntries_of_nodup {l : Fields} (hnd : (l.map Prod.fst).Nodup) :
    fromEntries l = l := by
  simpa using spreadInto_eq_append [] hnd (by simp)

theorem fillElems_eq_map (items : Schema) (vs : List Value) :
    Schema.fillElems items vs = (vs.map items.fill,
      (vs.map items.fillCalls).sum) := by
  induction vs with
  | nil => simp [Schema.fillElems]
  | cons v vs ih => simp [Schema.fillElems, ih, Schema.fill, Schema.fillCalls]

theorem fillProps_fst (props : List (String × Schema)) (fields : Fields) :
    (Schema.fillProps props fields).1.map Prod.fst = props.map Prod.fst := by
  induction props with
  | nil => simp [Schema.fillProps]
  | cons p ps ih =>
    obtain ⟨k, c⟩ := p
    simp [Schema.fillProps, ih]

theorem mem_fillProps {props : List (String × Schema)} (fields : Fields)
    {k : String} {c : Schema} (hmem : (k, c) ∈ props) :
    (k, c.fill (getField fields k)) ∈ (Schema.fillProps props fields).1 := by
  induction props with
  | nil => simp at hmem
  | cons p ps ih =>
    obtain ⟨k0, c0⟩ := p
    rcases List.mem_cons.mp hmem with h | h
    · cases h
      simp [Schema.fillProps, Schema.fill]
    · simp only [Schema.fillProps]
      exact List.mem_cons_of_mem _ (ih h)

theorem allRequired_eq_all (ts : List Schema) :
    Schema.allRequired ts = ts.all Schema.required := by
  induction ts with
  | nil => rfl
  | cons t ts ih => simp [Schema.allRequired, ih]

theorem anyRequired_eq_any (ts : List Schema) :
    Schema.anyRequired ts = ts.any Schema.required := by
  induction ts with
  | nil => rfl
  | cons t ts ih => simp [Schema.anyRequired, ih]

theorem passThrough_fillC {c : Schema} (h : c.isPassThrough = true)
    (v : Value) : c.fillC v = (v, 0) := by
  cases c <;> simp_all [Schema.isPassThrough, Schema.fillC]

theorem fillC_default_lit (t : Schema) (v : Value) (o : Fields) :
    (Schema.default' t (.lit v) o).fillC .undef = t.fillC v := by
  simp [Schema.fillC]

theorem fill_default_lit (t : Schema) (v : Value) (o : Fields) :
    (Schema.default' t (.lit v) o).fill .undef = t.fill v := by
  show ((Schema.default' t (.lit v) o).fillC .undef).1 = (t.fillC v).1
  rw [fillC_default_lit]

theorem fill_passThrough {c : Schema} (h : c.isPassThrough = true)
    (v : Value) : c.fill v = v := by
  show (c.fillC v).1 = v
  rw [passThrough_fillC h]

/-- C1: over the embedded algebra, the requiredness of a union node is the
conjunction of its members' requiredness, the requiredness of an intersection
node is the disjunction, and an optional node is never required —
`UnionSchema.required`, `IntersectionSchema.required` and
`OptionalSchema.required` of schema.ts. -/
theorem claim_C1_requiredness_algebra (members : List Schema)
    (o1 o2 : Fields) (x : Schema) (o3 : Fields) :
    ((Schema.union' members o1).required = true ↔
      ∀ t ∈ members, t.required = true) ∧
    ((Schema.intersection' members o2).required = true ↔
      ∃ t ∈ members, t.required = true) ∧
    (Schema.optional' x o3).required = false := by
  refine ⟨?_, ?_, rfl⟩
  · rw [show (Schema.union' members o1).required =
      Schema.allRequired members from rfl, allRequired_eq_all]
    exact List.all_eq_true
  · rw [show (Schema.intersection' members o2).required =
      Schema.anyRequired members from rfl, anyRequired_eq_any]
    simp [List.any_eq_true]

/-- C7: `EnumSchema.required` is true exactly when no declared value is
`undefined`; in particular `enum("a","b")` is required and
`enum("a", undefined)` is not. -/
theorem claim_C7_enum_required (values : List Value) (o : Fields) :
    ((Schema.enum' values o).required = true ↔ ∀ v ∈ values, v.isUndef = false) ∧
    (Schema.enum' [.str "a", .str "b"] []).required = true ∧
    (Schema.enum' [.str "a", .undef] []).required = false := by
  refine ⟨?_, rfl, rfl⟩
  rw [show (Schema.enum' values o).required =
    values.all (fun v => !v.isUndef) from rfl]
  simp [List.all_eq_true]

/-- C2: `DefaultSchema.fill` — on an absent (`undefined`) input it resolves
the configured default, invoking the producer exactly once when it is
callable and taking the literal otherwise, and delegates to the inner node's
fill on the resolved value; on a present input it delegates to the inner
node's fill on the unchanged input and performs no producer invocation of its
own (the invocation counts of the two calls coincide). -/
theorem claim_C2_default_fill (inner : Schema) (dv : DefaultValue)
    (o : Fields) (input : Value) :
    (input ≠ .undef →
      (Schema.default' inner dv o).fillC input = inner.fillC input) ∧
    (Schema.default' inner dv o).fill .undef = inner.fill dv.resolve ∧
    (Schema.default' inner dv o).fillCalls .undef =
      inner.fillCalls dv.resolve + dv.producerCalls := by
  refine ⟨fun h => ?_, ?_, ?_⟩
  · cases input with
    | undef => exact absurd rfl h
    | _ => simp [Schema.fillC]
  · cases dv <;>
      simp [Schema.fill, Schema.fillC, DefaultValue.resolve]
  · cases dv <;>
      simp [Schema.fillCalls, Schema.fillC, DefaultValue.resolve,
        DefaultValue.producerCalls]

/-- C2 witness: `default(string(), () => "x")` fills `undefined` to `"x"`
with one producer invocation, and fills the present input `"z"` to `"z"`
without invoking the producer. -/
theorem claim_C2_default_fill_witness :
    (Schema.default' (.string' []) (.producer fun _ => .str "x") []).fillC
        (.str "z") = (.str "z", 0) ∧
    (Schema.default' (.string' []) (.producer fun _ => .str "x") []).fill
        .undef = .str "x" ∧
    (Schema.default' (.string' []) (.producer fun _ => .str "x") []).fillCalls
        .undef = 1 ∧
    (Schema.default' (.string' []) (.lit (.str "y")) []).fill .undef =
      .str "y" := by
  refine ⟨?_, ?_, ?_, ?_⟩
  · rw [(claim_C2_default_fill (.string' []) (.producer fun _ => .str "x") []
      (.str "z")).1 (by simp)]
    simp [Schema.fillC]
  · exact (claim_C2_default_fill (.string' [])
      (.producer fun _ => .str "x") [] .undef).2.1.trans
      (by simp [Schema.fill, Schema.fillC, DefaultValue.resolve])
  · exact (claim_C2_default_fill (.string' [])
      (.producer fun _ => .str "x") [] .undef).2.2.trans
      (by simp [Schema.fillCalls, Schema.fillC, DefaultValue.resolve,
        DefaultValue.producerCalls])
  · exact (claim_C2_default_fill (.string' [])
      (.lit (.str "y")) [] .undef).2.1.trans
      (by simp [Schema.fill, Schema.fillC, DefaultValue.resolve])

/-- C6: `ArraySchema.fill` returns a non-array input unchanged, with no
producer invocation, coercion or error; on an array it returns a new array of
the same length obtained by applying the item node's fill to each element in
order. -/
theorem claim_C6_array_fill (items : Schema) (o : Fields) :
    (∀ input, isArray input = false →
      (Schema.array' items o).fillC input = (input, 0)) ∧
    (∀ elems : List Value,
      (Schema.array' items o).fill (.arr elems) =
        .arr (elems.map items.fill) ∧
      (elems.map items.fill).length = elems.length) := by
  constructor
  · intro input h
    cases input <;> simp_all [isArray, Schema.fillC]
  · intro elems
    refine ⟨?_, by simp⟩
    simp [Schema.fill, Schema.fillC, fillElems_eq_map]

/-- C6 witness: a number input is not an array and passes through unchanged,
and `array(number().int()).fill([1,2,3])` maps the (identity) item fill over
the elements, preserving length and order. -/
theorem claim_C6_array_fill_witness :
    (Schema.array' (.number' [("type", .str "int")]) []).fillC (.num 7) =
      (.num 7, 0) ∧
    (Schema.array' (.number' [("type", .str "int")]) []).fill
      (.arr [.num 1, .num 2, .num 3]) = .arr [.num 1, .num 2, .num 3] := by
  constructor
  · exact (claim_C6_array_fill (.number' [("type", .str "int")]) []).1
      (.num 7) rfl
  · rw [((claim_C6_array_fill (.number' [("type", .str "int")]) []).2
      [.num 1, .num 2, .num 3]).1]
    simp [Schema.fill, Schema.fillC]

/-- C1 witness: a union of two required members is required, an intersection
containing one required member is required, and a concrete optional node is
not required. -/
theorem claim_C1_requiredness_algebra_witness :
    (Schema.union' [.string' [], .bool' []] []).required = true ∧
    (Schema.intersection' [.optional' (.string' []) [], .string' []] []).required
      = true ∧
    (Schema.optional' (.bool' []) []).required = false := by
  refine ⟨?_, ?_, ?_⟩
  · exact (claim_C1_requiredness_algebra [.string' [], .bool' []] [] []
      (.bool' []) []).1.mpr
      (by intro t ht; simp at ht; rcases ht with rfl | rfl <;> rfl)
  · exact (claim_C1_requiredness_algebra [.optional' (.string' []) [], .string' []]
      [] [] (.bool' []) []).2.1.mpr ⟨.string' [], by simp, rfl⟩
  · exact (claim_C1_requiredness_algebra [] [] [] (.bool' []) []).2.2

/-- C7 witness: a singleton string enum is required by the general criterion. -/
theorem claim_C7_enum_required_witness :
    (Schema.enum' [.str "a"] []).required = true :=
  (claim_C7_enum_required [.str "a"] []).1.mpr
    (by intro v hv; simp at hv; simp [hv, Value.isUndef])

/-- C3: `ObjectSchema.fill` and `CollectionSchema.fill` — a non-plain-mapping
input is returned unchanged; a plain mapping is turned into a new mapping (a
shallow copy of the input) in which every declared property key is bound to
the child node's fill of the input's value at that key, while keys not
declared in the schema keep the input's binding untouched; the two classes
fill identically. -/
theorem claim_C3_object_fill (props : List (String × Schema)) (o : Fields) :
    (∀ input, isPlainObject input = false →
      (Schema.object' props o).fill input = input ∧
      (Schema.collection' props o).fill input = input) ∧
    (∀ fields : Fields,
      isPlainObject ((Schema.object' props o).fill (.obj fields)) = true ∧
      (Schema.collection' props o).fill (.obj fields) =
        (Schema.object' props o).fill (.obj fields)) ∧
    (∀ (fields : Fields) (k : String) (c : Schema),
      (props.map Prod.fst).Nodup → (k, c) ∈ props →
      ((Schema.object' props o).fill (.obj fields)).lookup k =
        some (c.fill (getField fields k))) ∧
    (∀ (fields : Fields) (k : String), k ∉ props.map Prod.fst →
      ((Schema.object' props o).fill (.obj fields)).lookup k =
        lookupF fields k) := by
  refine ⟨?_, ?_, ?_, ?_⟩
  · intro input h
    cases input <;> simp_all [isPlainObject, Schema.fill, Schema.fillC]
  · intro fields
    constructor
    · simp [Schema.fill, Schema.fillC, isPlainObject]
    · simp [Schema.fill, Schema.fillC]
  · intro fields k c hnd hmem
    have hout : (Schema.object' props o).fill (.obj fields) =
        .obj (spreadInto fields (Schema.fillProps props fields).1) := by
      simp [Schema.fill, Schema.fillC]
    rw [hout]
    show lookupF (spreadInto fields (Schema.fillProps props fields).1) k =
      some (c.fill (getField fields k))
    exact lookupF_spreadInto_mem fields
      (by rw [fillProps_fst]; exact hnd) (mem_fillProps fields hmem)
  · intro fields k hk
    have hout : (Schema.object' props o).fill (.obj fields) =
        .obj (spreadInto fields (Schema.fillProps props fields).1) := by
      simp [Schema.fill, Schema.fillC]
    rw [hout]
    show lookupF (spreadInto fields (Schema.fillProps props fields).1) k =
      lookupF fields k
    exact lookupF_spreadInto_not_mem fields (by rw [fillProps_fst]; exact hk)

/-- C3 witness: the spec's example — a document schema declaring
`role: default(enum("admin","user"), "user")`, filled with the plain mapping
`\x7b extra: 1 \x7d`, yields a mapping binding `role` to `"user"` and leaving
the undeclared `extra` at `1`; a number input passes through unchanged. -/
theorem claim_C3_object_fill_witness :
    ((Schema.object'
        [("role", .default' (.enum' [.str "admin", .str "user"] [])
          (.lit (.str "user")) [])] []).fill
      (.obj [("extra", .num 1)])).lookup "role" = some (.str "user") ∧
    ((Schema.object'
        [("role", .default' (.enum' [.str "admin", .str "user"] [])
          (.lit (.str "user")) [])] []).fill
      (.obj [("extra", .num 1)])).lookup "extra" = some (.num 1) ∧
    (Schema.collection'
        [("role", .default' (.enum' [.str "admin", .str "user"] [])
          (.lit (.str "user")) [])] []).fill (.num 5) = .num 5 := by
  refine ⟨?_, ?_, ?_⟩
  · rw [(claim_C3_object_fill
      [("role", .default' (.enum' [.str "admin", .str "user"] [])
        (.lit (.str "user")) [])] []).2.2.1 [("extra", .num 1)] "role"
      (.default' (.enum' [.str "admin", .str "user"] []) (.lit (.str "user")) [])
      (by simp) (by simp)]
    rw [show getField [("extra", Value.num 1)] "role" = Value.undef from rfl]
    rw [fill_default_lit, @fill_passThrough
      (Schema.enum' [.str "admin", .str "user"] []) rfl (.str "user")]
  · rw [(claim_C3_object_fill
      [("role", .default' (.enum' [.str "admin", .str "user"] [])
        (.lit (.str "user")) [])] []).2.2.2 [("extra", .num 1)] "extra"
      (by simp)]
    simp [lookupF]
  · exact ((claim_C3_object_fill
      [("role", .default' (.enum' [.str "admin", .str "user"] [])
        (.lit (.str "user")) [])] []).1 (.num 5) rfl).2

/-- C9: a plain-mapping fill of an object or document node materializes every
declared property key in the output, even a key absent from the input: the
key is unconditionally bound to the child's fill of `undefined`, which for an
optional child and for every pass-through child is `undefined` itself. -/
theorem claim_C9_declared_keys_materialize (props : List (String × Schema))
    (o : Fields) (fields : Fields) (k : String) (c : Schema)
    (hnd : (props.map Prod.fst).Nodup) (hmem : (k, c) ∈ props)
    (hmiss : lookupF fields k = none) :
    (((Schema.object' props o).fill (.obj fields)).lookup k =
        some (c.fill .undef) ∧
      ((Schema.collection' props o).fill (.obj fields)).lookup k =
        some (c.fill .undef)) ∧
    (∀ (t : Schema) (o2 : Fields), c = .optional' t o2 → c.fill .undef = .undef) ∧
    (c.isPassThrough = true → c.fill .undef = .undef) := by
  have hget : getField fields k = .undef := by simp [getField, hmiss]
  refine ⟨⟨?_, ?_⟩, ?_, ?_⟩
  · have hout : (Schema.object' props o).fill (.obj fields) =
        .obj (spreadInto fields (Schema.fillProps props fields).1) := by
      simp [Schema.fill, Schema.fillC]
    rw [hout]
    show lookupF (spreadInto fields (Schema.fillProps props fields).1) k = _
    rw [lookupF_spreadInto_mem fields
      (by rw [fillProps_fst]; exact hnd) (mem_fillProps fields hmem), hget]
  · have hout : (Schema.collection' props o).fill (.obj fields) =
        .obj (spreadInto fields (Schema.fillProps props fields).1) := by
      simp [Schema.fill, Schema.fillC]
    rw [hout]
    show lookupF (spreadInto fields (Schema.fillProps props fields).1) k = _
    rw [lookupF_spreadInto_mem fields
      (by rw [fillProps_fst]; exact hnd) (mem_fillProps fields hmem), hget]
  · rintro t o2 rfl
    simp [Schema.fill, Schema.fillC]
  · intro h
    simp [Schema.fill, passThrough_fillC h]

/-- C9 witness: a declared key `a` with an optional string child, missing
from the input `\x7b b: 2 \x7d`, appears in the filled output bound to
`undefined`. -/
theorem claim_C9_declared_keys_materialize_witness :
    ((Schema.object' [("a", .optional' (.string' []) [])] []).fill
      (.obj [("b", .num 2)])).lookup "a" = some .undef := by
  have h := claim_C9_declared_keys_materialize
    [("a", .optional' (.string' []) [])] [] [("b", .num 2)] "a"
    (.optional' (.string' []) []) (by simp) (by simp) (by simp [lookupF])
  rw [h.1.1, h.2.1 (.string' []) [] rfl]

theorem removeField_sublist (l : Fields) (k : String) :
    ((removeField l k).map Prod.fst).Sublist (l.map Prod.fst) :=
  (List.filter_sublist l).map Prod.fst

theorem not_mem_removeField_fst (l : Fields) (k : String) :
    k ∉ (removeField l k).map Prod.fst := by
  intro h
  rcases List.mem_map.mp h with ⟨⟨k0, v0⟩, hmem, hk⟩
  rcases List.mem_filter.mp hmem with ⟨_, hne⟩
  simp at hne
  exact hne (by simpa using hk)

/-- C10: `RefSchema.bsonSchema` destructures `deletePolicy` out of the node's
options and emits `\x7b bsonType: "objectId" \x7d` merged with the remaining
options only: the emitted document never contains a `deletePolicy` entry and
keeps the other options, while `RefSchema.delete` stores the policy on the
node's own options, where it remains after derivation. -/
theorem claim_C10_ref_delete_policy (r : String) (o : Fields)
    (p : DeletePolicy) (hnd : (o.map Prod.fst).Nodup)
    (hb : "bsonType" ∉ o.map Prod.fst) :
    lookupF ((Schema.ref' r o).delete p).optionsOf "deletePolicy" =
      some p.toValue ∧
    (∀ o2 : Fields,
      ((Schema.ref' r o2).bsonSchema).lookup "deletePolicy" = none) ∧
    ((Schema.ref' r o).bsonSchema).lookup "bsonType" =
      some (.str "objectId") ∧
    (∀ k, k ≠ "deletePolicy" → k ≠ "bsonType" →
      ((Schema.ref' r o).bsonSchema).lookup k = lookupF o k) ∧
    (((Schema.ref' r o).delete p).bsonSchema).lookup "deletePolicy" = none := by
  have hbson : ∀ o2 : Fields, (Schema.ref' r o2).bsonSchema =
      .obj (spreadInto [("bsonType", .str "objectId")]
        (removeField o2 "deletePolicy")) := by
    intro o2
    simp [Schema.bsonSchema]
  have hnone : ∀ o2 : Fields,
      ((Schema.ref' r o2).bsonSchema).lookup "deletePolicy" = none := by
    intro o2
    rw [hbson o2]
    show lookupF (spreadInto _ _) "deletePolicy" = none
    rw [lookupF_spreadInto_not_mem _ (not_mem_removeField_fst o2 "deletePolicy")]
    simp [lookupF]
  refine ⟨?_, hnone, ?_, ?_, hnone _⟩
  · simp [Schema.delete, Schema.optionsOf, lookupF_setField_self]
  · rw [hbson o]
    show lookupF (spreadInto _ _) "bsonType" = some (.str "objectId")
    rw [lookupF_spreadInto_not_mem _
      (fun hc => hb ((removeField_sublist o "deletePolicy").mem hc))]
    simp [lookupF]
  · intro k hk1 hk2
    rw [hbson o]
    show lookupF (spreadInto _ _) k = lookupF o k
    rw [lookupF_spreadInto _ k
      ((removeField_sublist o "deletePolicy").nodup hnd),
      lookupF_removeField_ne o hk1]
    cases h : lookupF o k with
    | none => simp [lookupF, Ne.symm hk2, Option.orElse]
    | some v => simp [Option.orElse]

/-- C10 witness: `ref("users").title("t").delete("cascade")` keeps the policy
in its options, while the derived document carries `bsonType: "objectId"`,
keeps the `title` option and has no `deletePolicy` entry. -/
theorem claim_C10_ref_delete_policy_witness :
    lookupF (( Schema.ref' "users" [("title", .str "t")]).delete
      .cascade).optionsOf "deletePolicy" = some (.str "cascade") ∧
    ((( Schema.ref' "users" [("title", .str "t")]).delete
      .cascade).bsonSchema).lookup "deletePolicy" = none ∧
    (( Schema.ref' "users" [("title", .str "t")]).bsonSchema).lookup "bsonType" =
      some (.str "objectId") ∧
    (( Schema.ref' "users" [("title", .str "t")]).bsonSchema).lookup "title" =
      some (.str "t") := by
  have h := claim_C10_ref_delete_policy "users" [("title", .str "t")] .cascade
    (by simp) (by simp)
  exact ⟨h.1, h.2.2.2.2, h.2.2.1,
    (h.2.2.2.1 "title" (by decide) (by decide)).trans (by simp [lookupF])⟩

/-- C8: combinator immutability over the node store — applying any combinator
of the algebra (`Comb.apply` dispatches to the source's methods) to the node
at index `i` leaves every node already in the store, in particular the
receiver, structurally unchanged, appends exactly one node, and returns a
fresh reference holding the combinator's functional result. -/
theorem claim_C8_combinator_immutability (c : Comb) (st : Store) (i j : Nat)
    (h : j < st.nodes.length) :
    (st.applyComb c i).1.nodes[j]? = st.nodes[j]? ∧
    (st.applyComb c i).1.nodes.length = st.nodes.length + 1 ∧
    (st.applyComb c i).2 = st.nodes.length ∧
    (st.applyComb c i).1.nodes[(st.applyComb c i).2]? =
      some (c.apply (st.nodes.getD i (.null' []))) := by
  refine ⟨?_, by simp [Store.applyComb], rfl, ?_⟩
  · show (st.nodes ++ [c.apply (st.nodes.getD i (.null' []))])[j]? = _
    exact List.getElem?_append_left h
  · show (st.nodes ++ [c.apply (st.nodes.getD i (.null' []))])[st.nodes.length]?
      = _
    simp

/-- C8 witness: applying `optional()` to the single node of a store keeps
that node intact at its index and appends the wrapped node as a fresh
entry. -/
theorem claim_C8_combinator_immutability_witness :
    (Store.applyComb ⟨[.string' []]⟩ .optional 0).1.nodes[0]? =
      some (.string' []) ∧
    (Store.applyComb ⟨[.string' []]⟩ .optional 0).1.nodes.length = 2 ∧
    (Store.applyComb ⟨[.string' []]⟩ .optional 0).2 = 1 ∧
    (Store.applyComb ⟨[.string' []]⟩ .optional 0).1.nodes[1]? =
      some (.optional' (.string' []) []) := by
  have h := claim_C8_combinator_immutability .optional ⟨[.string' []]⟩ 0 0
    (by simp)
  exact ⟨h.1.trans rfl, h.2.1, h.2.2.1, h.2.2.2⟩

theorem spreadInto_append (base xs ys : Fields) :
    spreadInto base (xs ++ ys) = spreadInto (spreadInto base xs) ys := by
  unfold spreadInto
  exact List.foldl_append ..

/-- C4 counterexample: the claim says the record derivation with a string key
node emits the entry keyed by the string's pattern, with the match-all key
`^.*$` reserved for the case that no pattern is given.  For the key node
`string().pattern("")` a pattern is given — the empty string, kept in the
options — yet the emitted entry is keyed by `^.*$` and not by the given
pattern, because the source tests JS truthiness (`!pattern`), not absence. -/
theorem claim_C4_record_bson_counterexample :
    lookupF (Schema.optionsOf (.string' [("pattern", .str "")])) "pattern" =
      some (.str "") ∧
    ((Schema.record' (.string' [("pattern", .str "")])
        (.string' []) []).bsonSchema).lookup "patternProperties" =
      some (.obj [("^.*$", .obj [("bsonType", .str "string")])]) ∧
    ("^.*$" : String) ≠ "" := by
  refine ⟨by simp [Schema.optionsOf, lookupF], ?_, by decide⟩
  simp [Schema.bsonSchema, Value.lookup, spreadInto, setField, lookupF,
    removeField, recordPatternKey, getField, jsTruthy, jsStringOf,
    patternSource, Schema.optionsOf]

/-- C4 (amended): `RecordSchema.bsonSchema` — with an enum key node the
derivation emits a `properties` mapping holding exactly one entry per
(distinct) enum value, each entry the value node's derivation, and a
`required` list equal to the enum's values exactly when the value node
reports `required()`; with a string key node it emits a single
`patternProperties` entry whose key is the string's pattern — a RegExp
reduced to its source text — or the match-all pattern `^.*$` when no pattern
is given or the given pattern is the empty string (JS-falsy). -/
theorem claim_C4_record_bson (values : List String) (ko : Fields)
    (vs : Schema) (o : Fields) :
    (values.Nodup →
      ((Schema.record' (.enum' (values.map .str) ko) vs o).bsonSchema).lookup
          "properties" =
        some (.obj (values.map (fun s => (s, vs.bsonSchema))))) ∧
    (vs.required = true →
      ((Schema.record' (.enum' (values.map .str) ko) vs o).bsonSchema).lookup
          "required" =
        some (.arr (values.map .str))) ∧
    (vs.required = false → "required" ∉ o.map Prod.fst →
      ((Schema.record' (.enum' (values.map .str) ko) vs o).bsonSchema).lookup
          "required" = none) ∧
    (((Schema.record' (.string' ko) vs o).bsonSchema).lookup
        "patternProperties" =
      some (.obj [(recordPatternKey ko, vs.bsonSchema)])) ∧
    (lookupF ko "pattern" = none → recordPatternKey ko = "^.*$") ∧
    (∀ src, lookupF ko "pattern" = some (.regex src) →
      recordPatternKey ko = src) ∧
    (∀ s, lookupF ko "pattern" = some (.str s) →
      recordPatternKey ko = if s = "" then "^.*$" else s) := by
  have hbson : (Schema.record' (.enum' (values.map .str) ko) vs o).bsonSchema =
      .obj (spreadInto (spreadInto [("bsonType", .str "object")] o)
        ((if vs.required = true then
            [("required", .arr (values.map .str))] else []) ++
          [("properties", .obj (fromEntries ((values.map Value.str).map
            (fun v => (jsStringOf v, vs.bsonSchema)))))])) := by
    simp [Schema.bsonSchema]
  refine ⟨?_, ?_, ?_, ?_, ?_, ?_, ?_⟩
  · intro hnd
    rw [hbson]
    show lookupF _ "properties" = _
    rw [spreadInto_append]
    show lookupF (setField _ "properties" _) "properties" = _
    rw [lookupF_setField_self]
    have hmm : (values.map Value.str).map
        (fun v => (jsStringOf v, vs.bsonSchema)) =
        values.map (fun s => (s, vs.bsonSchema)) := by
      simp [List.map_map, Function.comp_def, jsStringOf]
    rw [hmm, fromEntries_of_nodup]
    simpa [List.map_map, Function.comp_def] using hnd
  · intro hreq
    have hb2 : (Schema.record' (.enum' (values.map .str) ko) vs o).bsonSchema =
        .obj (spreadInto (spreadInto [("bsonType", .str "object")] o)
          ([("required", .arr (values.map .str))] ++
            [("properties", .obj (fromEntries ((values.map Value.str).map
              (fun v => (jsStringOf v, vs.bsonSchema)))))])) := by
      simp [Schema.bsonSchema, hreq]
    rw [hb2, spreadInto_append]
    show lookupF (setField (setField _ "required" _) "properties" _)
      "required" = _
    rw [lookupF_setField_ne _ _ (by decide), lookupF_setField_self]
  · intro hreq hro
    have hb3 : (Schema.record' (.enum' (values.map .str) ko) vs o).bsonSchema =
        .obj (spreadInto (spreadInto [("bsonType", .str "object")] o)
          [("properties", .obj (fromEntries ((values.map Value.str).map
            (fun v => (jsStringOf v, vs.bsonSchema)))))]) := by
      simp [Schema.bsonSchema, hreq]
    rw [hb3]
    show lookupF (setField _ "properties" _) "required" = none
    rw [lookupF_setField_ne _ _ (by decide),
      lookupF_spreadInto_not_mem _ hro]
    simp [lookupF]
  · have hb4 : (Schema.record' (.string' ko) vs o).bsonSchema =
        .obj (spreadInto (spreadInto [("bsonType", .str "object")] o)
          [("patternProperties",
            .obj [(recordPatternKey ko, vs.bsonSchema)])]) := by
      simp [Schema.bsonSchema, Schema.optionsOf]
    rw [hb4]
    show lookupF (setField _ "patternProperties" _) "patternProperties" = _
    rw [lookupF_setField_self]
  · intro h
    simp [recordPatternKey, getField, h, jsTruthy]
  · intro src h
    simp [recordPatternKey, getField, h, jsTruthy, patternSource, jsStringOf]
  · intro s h
    by_cases hs : s = ""
    · simp [recordPatternKey, getField, h, jsTruthy, hs]
    · simp [recordPatternKey, getField, h, jsTruthy, hs, patternSource,
        jsStringOf]

/-- C4 witness: `record(enum("x","y"), string())` derives `properties` with
exactly the keys `x` and `y`, each the string node's derivation, and
`required` equal to `["x","y"]` since the string value node is required;
`record(string().pattern(/^[a-z]+$/), string())` derives one
`patternProperties` entry keyed by the RegExp's source text. -/
theorem claim_C4_record_bson_witness :
    ((Schema.record' (.enum' (["x", "y"].map Value.str) []) (.string' [])
        []).bsonSchema).lookup "properties" =
      some (.obj [("x", .obj [("bsonType", .str "string")]),
        ("y", .obj [("bsonType", .str "string")])]) ∧
    ((Schema.record' (.enum' (["x", "y"].map Value.str) []) (.string' [])
        []).bsonSchema).lookup "required" =
      some (.arr [.str "x", .str "y"]) ∧
    ((Schema.record' (.string' [("pattern", .regex "^[a-z]+$")]) (.string' [])
        []).bsonSchema).lookup "patternProperties" =
      some (.obj [("^[a-z]+$", .obj [("bsonType", .str "string")])]) := by
  have h := claim_C4_record_bson ["x", "y"] [] (.string' []) []
  have h2 := claim_C4_record_bson ["x", "y"]
    [("pattern", .regex "^[a-z]+$")] (.string' []) []
  refine ⟨?_, ?_, ?_⟩
  · rw [h.1 (by decide)]
    simp [Schema.bsonSchema, lookupF, removeField, spreadInto, setField]
  · rw [h.2.1 rfl]
    simp
  · rw [h2.2.2.2.1,
      h2.2.2.2.2.2.1 "^[a-z]+$" (by simp [lookupF])]
    simp [Schema.bsonSchema, lookupF, removeField, spreadInto, setField]

theorem invalidRefs_eq_filter (s : Schema) (ks : List String) :
    Schema.invalidRefs s ks =
      (Schema.refTargets s).filter (fun t => decide (t ∉ ks)) := by
  refine Schema.invalidRefs.induct
    (fun s ks => Schema.invalidRefs s ks =
      (Schema.refTargets s).filter (fun t => decide (t ∉ ks)))
    (fun ts ks => Schema.invalidRefsList ts ks =
      (Schema.refTargetsList ts).filter (fun t => decide (t ∉ ks)))
    (fun ps ks => Schema.invalidRefsProps ps ks =
      (Schema.refTargetsProps ps).filter (fun t => decide (t ∉ ks)))
    ?_ ?_ ?_ ?_ ?_ ?_ ?_ ?_ ?_ ?_ ?_ ?_ ?_ ?_ ?_ s ks
  · intro r o ks h
    simp [Schema.invalidRefs, Schema.refTargets, h]
  · intro r o ks h
    simp [Schema.invalidRefs, Schema.refTargets, h]
  · intro items o ks ih
    simp [Schema.invalidRefs, Schema.refTargets, ih]
  · intro props o ks ih
    simp [Schema.invalidRefs, Schema.refTargets, ih]
  · intro props o ks ih
    simp [Schema.invalidRefs, Schema.refTargets, ih]
  · intro k v o ks ih1 ih2
    simp [Schema.invalidRefs, Schema.refTargets, ih1, ih2, List.filter_append]
  · intro t o ks ih
    simp [Schema.invalidRefs, Schema.refTargets, ih]
  · intro t dv o ks ih
    simp [Schema.invalidRefs, Schema.refTargets, ih]
  · intro ts o ks ih
    simp [Schema.invalidRefs, Schema.refTargets, ih]
  · intro ts o ks ih
    simp [Schema.invalidRefs, Schema.refTargets, ih]
  · intro t x h1 h2 h3 h4 h5 h6 h7 h8 h9
    cases t with
    | null' o => simp [Schema.invalidRefs, Schema.refTargets]
    | bool' o => simp [Schema.invalidRefs, Schema.refTargets]
    | date' o => simp [Schema.invalidRefs, Schema.refTargets]
    | binary' o => simp [Schema.invalidRefs, Schema.refTargets]
    | objectId' o => simp [Schema.invalidRefs, Schema.refTargets]
    | enum' vs o => simp [Schema.invalidRefs, Schema.refTargets]
    | string' o => simp [Schema.invalidRefs, Schema.refTargets]
    | number' o => simp [Schema.invalidRefs, Schema.refTargets]
    | ref' r o => exact absurd rfl (h1 r o)
    | array' items o => exact absurd rfl (h2 items o)
    | object' props o => exact absurd rfl (h3 props o)
    | collection' props o => exact absurd rfl (h4 props o)
    | record' k v o => exact absurd rfl (h5 k v o)
    | optional' t2 o => exact absurd rfl (h6 t2 o)
    | default' t2 dv o => exact absurd rfl (h7 t2 dv o)
    | union' ts o => exact absurd rfl (h8 ts o)
    | intersection' ts o => exact absurd rfl (h9 ts o)
  · intro x
    simp [Schema.invalidRefsProps, Schema.refTargetsProps]
  · intro fst child ps ks ih1 ih2
    simp [Schema.invalidRefsProps, Schema.refTargetsProps, ih1, ih2,
      List.filter_append]
  · intro x
    simp [Schema.invalidRefsList, Schema.refTargetsList]
  · intro t ts ks ih1 ih2
    simp [Schema.invalidRefsList, Schema.refTargetsList, ih1, ih2,
      List.filter_append]

/-- C5: the ref-target well-formedness check the source ships — the
`ValidateSchema` / `ValidateValue` mapped type of types.ts, applied to the
whole schema argument of `db` at schema-finalization time, before any node is
used — plants exactly one marker per invalid reference: the markers of a node
are precisely its ref targets outside the declared name set, a schema-level
validation names every invalid reference of every collection (it does not
stop at the first), and it is silent exactly when every ref target names a
declared collection. -/
theorem claim_C5_invalid_ref_aggregation (dbs : List (String × Schema))
    (r : String) :
    (∀ (s : Schema) (ks : List String),
      Schema.invalidRefs s ks =
        (Schema.refTargets s).filter (fun t => decide (t ∉ ks))) ∧
    (r ∈ schemaInvalidRefs dbs ↔
      ∃ p ∈ dbs, r ∈ Schema.refTargets p.2 ∧ r ∉ dbs.map Prod.fst) ∧
    (schemaInvalidRefs dbs = [] ↔
      ∀ p ∈ dbs, ∀ t ∈ Schema.refTargets p.2, t ∈ dbs.map Prod.fst) := by
  refine ⟨invalidRefs_eq_filter, ?_, ?_⟩
  · constructor
    · intro hmem
      simp only [schemaInvalidRefs] at hmem
      rcases List.mem_flatten.mp hmem with ⟨l, hl, hrl⟩
      rcases List.mem_map.mp hl with ⟨p, hp, rfl⟩
      rw [invalidRefs_eq_filter] at hrl
      rcases List.mem_filter.mp hrl with ⟨ht, hdec⟩
      exact ⟨p, hp, ht, by simpa using hdec⟩
    · rintro ⟨p, hp, ht, hnot⟩
      simp only [schemaInvalidRefs]
      refine List.mem_flatten.mpr ⟨_, List.mem_map_of_mem _ hp, ?_⟩
      rw [invalidRefs_eq_filter]
      exact List.mem_filter.mpr ⟨ht, by simpa using hnot⟩
  · simp only [schemaInvalidRefs, invalidRefs_eq_filter]
    rw [List.flatten_eq_nil_iff]
    constructor
    · intro h p hp t ht
      by_contra hc
      have := h _ (List.mem_map_of_mem _ hp)
      rw [List.filter_eq_nil_iff] at this
      exact this t ht (by simpa using hc)
    · intro h l hl
      rcases List.mem_map.mp hl with ⟨p, hp, rfl⟩
      rw [List.filter_eq_nil_iff]
      intro t ht
      simpa using h p hp t ht

/-- C5 witness: a schema with two collections holding one invalid reference
each — the aggregate validation reports both, neither is lost to a fail-fast
stop. -/
theorem claim_C5_invalid_ref_aggregation_witness :
    "nope" ∈ schemaInvalidRefs
      [("users", .collection' [("a", Schema.ref' "nope" []),
        ("b", Schema.ref' "users" [])] []),
       ("posts", .collection' [("c", Schema.ref' "missing" [])] [])] ∧
    "missing" ∈ schemaInvalidRefs
      [("users", .collection' [("a", Schema.ref' "nope" []),
        ("b", Schema.ref' "users" [])] []),
       ("posts", .collection' [("c", Schema.ref' "missing" [])] [])] := by
  constructor
  · exact (claim_C5_invalid_ref_aggregation _ "nope").2.1.mpr
      ⟨("users", .collection' [("a", Schema.ref' "nope" []),
          ("b", Schema.ref' "users" [])] []), by simp,
        by simp [Schema.refTargets, Schema.refTargetsProps], by simp⟩
  · exact (claim_C5_invalid_ref_aggregation _ "missing").2.1.mpr
      ⟨("posts", .collection' [("c", Schema.ref' "missing" [])] []), by simp,
        by simp [Schema.refTargets, Schema.refTargetsProps], by simp⟩

end Mongoh
